import Mathlib

/-!
Shallow embedding of `adobe_downloader.py` (Adobe Connect Downloader).

Conventions of the embedding:
* Python strings are Lean `String`s; character-level work is done on `List Char`.
  Character classes (`\d`, `\s`, `[a-zA-Z0-9_-]`) are modelled over ASCII
  (`Char.isDigit`, an explicit whitespace list, `Char.isAlphanum`); inputs are
  assumed free of the exotic Unicode digits and of the control characters that
  `urllib.parse` strips.
* Filesystem paths are lists of path components (`FsPath`); `os.path.join a b`
  is `a ++ [b]`.
* Network and filesystem effects are factored into an `Env` of oracles
  (response bodies, existence checks, transcoder outcomes); the functions
  return their Python return value together with a trace of `Event`s recording
  every HTTP request, directory creation, file write, transcode invocation,
  file move and cleanup, in program order.
* External collaborators that live outside this file of the repository
  (`file_ops.safe_filename`, `file_ops.get_main_download_dir`, the ffmpeg
  handler results) are opaque parameters of the model, so every theorem below
  holds for an arbitrary behaviour of those collaborators.
-/

/-! ## Basic text utilities -/

/-- Python `str.lower()` (ASCII model). -/
def lowerStr (s : String) : String := String.mk (s.data.map Char.toLower)

/-- Python `str.endswith(suffix)`. -/
def pyEndsWith (s sfx : String) : Bool := sfx.data.isSuffixOf s.data

/-- Python regex `\s` (ASCII model: space, tab, newline, carriage return,
vertical tab, form feed). -/
def isPySpace (c : Char) : Bool :=
  c = ' ' || c = '\t' || c = '\n' || c = '\r' || c = Char.ofNat 11 || c = Char.ofNat 12

/-- The character class `[a-zA-Z0-9_-]` of the path-token fallback regex. -/
def isUrlSafeChar (c : Char) : Bool := c.isAlphanum || c = '_' || c = '-'

/-- Numeric value of a nonempty list of decimal digits (Python `int(...)`). -/
def digitsToNat (l : List Char) : Nat :=
  l.foldl (fun a c => a * 10 + (c.toNat - '0'.toNat)) 0

/-! ## Python `urllib.parse.urlparse` (scheme, netloc, path) -/

/-- Characters allowed in a URL scheme after the first letter. -/
def isSchemeChar (c : Char) : Bool := c.isAlphanum || c = '+' || c = '-' || c = '.'

structure UrlParts where
  scheme : String
  netloc : String
  path : String
deriving DecidableEq

/-- `urllib.parse.urlsplit`, restricted to the `scheme`, `netloc` and `path`
components (params are split off separately below, `query` and `fragment` are
discarded as the source never reads them). -/
def pyUrlsplit (url : String) : UrlParts :=
  let cs := url.data
  let pre := cs.takeWhile (fun c => c ≠ ':')
  let schemeOk : Bool :=
    decide (pre.length < cs.length) &&
      (match pre with
       | [] => false
       | c :: _ => c.isAlpha) &&
      pre.all isSchemeChar
  let scheme := if schemeOk then pre.map Char.toLower else []
  let rest := if schemeOk then cs.drop (pre.length + 1) else cs
  let hasNetloc : Bool :=
    match rest with
    | '/' :: '/' :: _ => true
    | _ => false
  let afterSlashes := if hasNetloc then rest.drop 2 else rest
  let netloc :=
    if hasNetloc then
      afterSlashes.takeWhile (fun c => c ≠ '/' && c ≠ '?' && c ≠ '#')
    else []
  let rest2 := if hasNetloc then afterSlashes.drop netloc.length else rest
  let path := (rest2.takeWhile (fun c => c ≠ '#')).takeWhile (fun c => c ≠ '?')
  { scheme := String.mk scheme, netloc := String.mk netloc, path := String.mk path }

/-- `urllib.parse._splitparams`: drop a `;params` suffix from the last path
segment (`url.find` of a semicolon at or after the last slash). -/
def pySplitParams (p : List Char) : List Char :=
  let seg := (p.reverse.takeWhile (fun c => c ≠ '/')).reverse
  p.take (p.length - seg.length) ++ seg.takeWhile (fun c => c ≠ ';')

/-- `urlparse(url).path`: the split path with params removed. -/
def pyUrlparsePath (url : String) : String :=
  String.mk (pySplitParams (pyUrlsplit url).path.data)

/-! ## Regex probes of `get_id_and_type` / `get_account_id`

Each Python pattern is an alternation-free literal/character-class pattern, so
`re.search` semantics (leftmost match, greedy quantifiers) coincide with
maximal-munch matching tried at each start position from the left: `\s*` is
never followed by a whitespace-matching atom and `\d+` is never followed by a
digit-matching atom, so greedy backtracking never gives up characters. -/

/-- Case-insensitive literal match (`re.IGNORECASE`); returns the rest of the
input after the literal. -/
def matchLitCI : List Char → List Char → Option (List Char)
  | [], s => some s
  | _, [] => none
  | l :: ls, c :: cs => if l.toLower = c.toLower then matchLitCI ls cs else none

/-- Case-sensitive literal match; returns the rest of the input. -/
def matchLitCS : List Char → List Char → Option (List Char)
  | [], s => some s
  | _, [] => none
  | l :: ls, c :: cs => if l = c then matchLitCS ls cs else none

/-- Attempt pattern `"sco-id"\s*:\s*"(\d+)"` at the start of the input,
returning the captured digits. -/
def matchQuotedScoAt (s : List Char) : Option (List Char) :=
  match matchLitCI "\"sco-id\"".data s with
  | none => none
  | some r1 =>
    match r1.dropWhile isPySpace with
    | ':' :: r3 =>
      match r3.dropWhile isPySpace with
      | '"' :: r5 =>
        let ds := r5.takeWhile Char.isDigit
        if ds = [] then none
        else
          match r5.drop ds.length with
          | '"' :: _ => some ds
          | _ => none
      | _ => none
    | _ => none

/-- Attempt a `literal(\d+)` pattern (case-insensitive literal immediately
followed by one or more digits) at the start of the input. -/
def matchLitDigitsAt (lit : String) (s : List Char) : Option (List Char) :=
  match matchLitCI lit.data s with
  | none => none
  | some r =>
    let ds := r.takeWhile Char.isDigit
    if ds = [] then none else some ds

/-- Attempt pattern `account_id\s*=\s*(\d+)` (case-sensitive) at the start of
the input. -/
def matchAccountIdAt (s : List Char) : Option (List Char) :=
  match matchLitCS "account_id".data s with
  | none => none
  | some r1 =>
    match r1.dropWhile isPySpace with
    | '=' :: r3 =>
      let r4 := r3.dropWhile isPySpace
      let ds := r4.takeWhile Char.isDigit
      if ds = [] then none else some ds
    | _ => none

/-- `re.search`: try the position matcher at every start position, leftmost
first. -/
def searchPos (f : List Char → Option (List Char)) : List Char → Option (List Char)
  | [] => f []
  | c :: rest =>
    match f (c :: rest) with
    | some r => some r
    | none => searchPos f rest

/-- The ordered pattern probes of `get_id_and_type`, applied to a fetched page
body: first match (in pattern order) wins. -/
def findScoId (body : String) : Option String :=
  let cs := body.data
  match searchPos matchQuotedScoAt cs with
  | some ds => some (String.mk ds)
  | none =>
    match searchPos (matchLitDigitsAt "sco-id=") cs with
    | some ds => some (String.mk ds)
    | none =>
      match searchPos (matchLitDigitsAt "recording-id=") cs with
      | some ds => some (String.mk ds)
      | none =>
        match searchPos (matchLitDigitsAt "scoid:") cs with
        | some ds => some (String.mk ds)
        | none => none

/-- `get_account_id(meeting_url, session)`: search `account_id\s*=\s*(\d+)` in
the fetched body; any fetch error (`page = none`) yields `none`. -/
def get_account_id (page : Option String) : Option String :=
  match page with
  | none => none
  | some b =>
    match searchPos matchAccountIdAt b.data with
    | some ds => some (String.mk ds)
    | none => none

/-! ## `get_id_and_type` -/

/-- Python `path.strip(slash)` on both ends. -/
def stripSlashes (s : String) : String :=
  String.mk (((s.data.dropWhile (fun c => c = '/')).reverse.dropWhile
    (fun c => c = '/')).reverse)

/-- The string the path fallback regex is applied to:
`urlparse(meeting_url).path.strip(slash).split(questionmark)[0]`. -/
def pathTokenSource (url : String) : String :=
  String.mk ((stripSlashes (pyUrlparsePath url)).data.takeWhile (fun c => c ≠ '?'))

/-- The fallback regex `([a-zA-Z0-9_-]+)$`: the maximal nonempty trailing run
of URL-safe characters, if any. -/
def trailingToken (s : String) : Option String :=
  let run := (s.data.reverse.takeWhile isUrlSafeChar).reverse
  if run = [] then none else some (String.mk run)

/-- The path-token fallback of `get_id_and_type` (lines 251-258): the trailing
URL-safe run of the stripped path, or the `None, None` outcome. -/
def pathFallbackResult (meeting_url : String) : Option (String × String) :=
  match trailingToken (pathTokenSource meeting_url) with
  | some t => some (t, "path-id")
  | none => none

/-- `get_id_and_type(meeting_url, session)`. `page` is the body of the
(always-attempted) page fetch, `none` when the fetch raised or the status was
an HTTP error (`raise_for_status`). Returns the identifier and its type
string, or `none` for the Python `None, None`. -/
def get_id_and_type (meeting_url : String) (page : Option String) :
    Option (String × String) :=
  match (match page with | none => none | some b => findScoId b) with
  | some v => some (v, "sco-id")
  | none => pathFallbackResult meeting_url

/-! ## `construct_zip_urls` -/

/-- `list(dict.fromkeys(urls))`: order-preserving dedup keeping the first
occurrence; `seen` accumulates the elements already emitted. -/
def pyDedupAux (seen : List String) : List String → List String
  | [] => []
  | x :: xs =>
    if seen.contains x then pyDedupAux seen xs
    else x :: pyDedupAux (x :: seen) xs

/-- Order-preserving dedup keeping first occurrences. -/
def pyDedup (l : List String) : List String := pyDedupAux [] l

/-- `construct_zip_urls(meeting_url, recording_id, id_type, session)`.
`account_id` is the outcome of the `get_account_id` probe (the network call is
an event of the orchestrator model). Note the `id_type` argument is never
read. -/
def construct_zip_urls (meeting_url recording_id id_type : String)
    (account_id : Option String) : List String :=
  let u := pyUrlsplit meeting_url
  let base := u.scheme ++ "://" ++ u.netloc
  let urlsA := [base ++ "/" ++ recording_id ++ "/output/" ++ recording_id ++ ".zip?download=zip",
                base ++ "/" ++ recording_id ++ "/output/output.zip?download=zip",
                base ++ "/p" ++ recording_id ++ "/output/" ++ recording_id ++ ".zip?download=zip",
                base ++ "/p" ++ recording_id ++ "/output/output.zip?download=zip"]
  let urlsC :=
    match account_id with
    | some a => [base ++ "/content/" ++ a ++ "/" ++ recording_id ++ "-1/output/" ++ recording_id ++ "-1.zip?download=zip",
                 base ++ "/content/" ++ a ++ "/" ++ recording_id ++ "-1/output/output.zip?download=zip"]
    | none => []
  let _ := id_type
  pyDedup (urlsA ++ urlsC)

/-! ## `find_media_streams` -/

/-- Filesystem paths as lists of components; `os.path.join dir name` is
`dir ++ [name]`. -/
abbrev FsPath := List String

/-- `os.path.basename` of a component path. -/
def fsBasename (p : FsPath) : String := p.getLastD ""

/-- `re.match(r'([a-zA-Z0-9]+)_', filename)`, group 1: the maximal leading
alphanumeric run, provided it is nonempty and immediately followed by an
underscore (shorter runs cannot help the regex engine, since they would end on
an alphanumeric character, not the required underscore). -/
def flvStreamKey (filename : String) : Option String :=
  let cs := filename.data
  let run := cs.takeWhile Char.isAlphanum
  if run = [] then none
  else
    match cs.drop run.length with
    | '_' :: _ => some (String.mk run)
    | _ => none

/-- `os.path.splitext(b)[0]`: strip the extension at the last dot, except that
dots leading the name do not start an extension. -/
def pySplitextStem (b : String) : String :=
  let cs := b.data
  let lead := cs.takeWhile (fun c => c = '.')
  let rest := cs.drop lead.length
  if rest.contains '.' then
    String.mk (lead ++ (rest.reverse.dropWhile (fun c => c ≠ '.')).reverse.dropLast)
  else b

/-- Python `s.split(underscore)[-1]`: the suffix after the last underscore
(the whole string when none occurs). -/
def lastUnderscorePiece (s : String) : String :=
  String.mk ((s.data.reverse.takeWhile (fun c => c ≠ '_')).reverse)

/-- The sort key of `find_media_streams`: the numeric suffix of the stem when
it is a nonempty all-digit string, else 0. -/
def flvSortKey (f : FsPath) : Nat :=
  let t := lastUnderscorePiece (pySplitextStem (fsBasename f))
  if t ≠ "" && t.data.all Char.isDigit then digitsToNat t.data else 0

/-- Stable insertion into a list sorted by `key` (a later element is placed
after existing elements with an equal key). -/
def insSortedByKey (key : FsPath → Nat) (x : FsPath) : List FsPath → List FsPath
  | [] => [x]
  | y :: ys => if key x < key y then x :: y :: ys else y :: insSortedByKey key x ys

/-- Python `sorted(l, key=key)`: stable ascending sort. -/
def stableSortByKey (key : FsPath → Nat) (l : List FsPath) : List FsPath :=
  l.foldl (fun acc x => insSortedByKey key x acc) []

/-- Append a value to the group of `k`, keeping key insertion order
(`defaultdict(list)` with Python dict ordering). -/
def addToGroup (gs : List (String × List FsPath)) (k : String) (v : FsPath) :
    List (String × List FsPath) :=
  match gs with
  | [] => [(k, [v])]
  | (k0, vs) :: rest =>
    if k0 = k then (k0, vs ++ [v]) :: rest else (k0, vs) :: addToGroup rest k v

/-- Dictionary lookup on the ordered group list (`streams.get(k)` / `k in
streams`). -/
def lookupGroup (gs : List (String × List FsPath)) (k : String) : Option (List FsPath) :=
  match gs with
  | [] => none
  | (k0, vs) :: rest => if k0 = k then some vs else lookupGroup rest k

/-- `find_media_streams(extract_folder)`: `listing` is the
`os.listdir(extract_folder)` oracle. Keeps only `.flv` files (case-insensitive
extension check) with an alphanumeric prefix before an underscore, groups full
joined paths under the lowercased prefix, then stably sorts each group by the
numeric suffix. -/
def find_media_streams (extract_folder : FsPath) (listing : List String) :
    List (String × List FsPath) :=
  let gs := listing.foldl
    (fun gs f =>
      if pyEndsWith (lowerStr f) ".flv" then
        match flvStreamKey f with
        | some k => addToGroup gs (lowerStr k) (extract_folder ++ [f])
        | none => gs
      else gs) []
  gs.map (fun g => (g.1, stableSortByKey flvSortKey g.2))

/-! ## The orchestrator: events, environment, `process_single_url` -/

/-- Which of the three transcoding operations was invoked. -/
inductive TransKind where
  | video
  | audio
  | merge
deriving DecidableEq

/-- Observable effects of one job, in program order. -/
inductive Event where
  /-- An HTTP request was issued (`session.get`), successful or not. -/
  | net (url : String)
  /-- `os.makedirs` of the working directory. -/
  | mkdir (p : FsPath)
  /-- File content written at a path (zip download, archive extraction,
  normalized intermediates, merged output). -/
  | write (p : FsPath)
  /-- `zipfile.ZipFile(...).extractall` was invoked on an archive. -/
  | extract (archive : FsPath)
  /-- A transcoding call (`normalize_video_stream`, `normalize_audio_stream`,
  `merge_normalized_streams`). -/
  | transcode (k : TransKind)
  /-- `shutil.move src dst`. -/
  | move (src dst : FsPath)
  /-- `cleanup_temp_directory` on a directory. -/
  | cleanup (p : FsPath)
deriving DecidableEq

def isNetEvent : Event → Bool
  | .net _ => true
  | _ => false

def isExtractEvent : Event → Bool
  | .extract _ => true
  | _ => false

def isTranscodeEvent : Event → Bool
  | .transcode _ => true
  | _ => false

/-- Outcome of `session.get(zip_url, stream=True)` for one candidate:
an exception, or a response with a status code and a declared content type. -/
inductive ZipResp where
  | err
  | resp (status : Nat) (contentType : String)
deriving DecidableEq

/-- Python `needle in hay` on strings: contiguous substring test. -/
def subListOf (needle : List Char) : List Char → Bool
  | [] => needle.isEmpty
  | c :: rest => needle.isPrefixOf (c :: rest) || subListOf needle rest

/-- `'html' in content_type.lower()`. -/
def isHtmlContentType (ct : String) : Bool :=
  subListOf "html".data (lowerStr ct).data

/-- Per-job configuration: the URL and CLI filename, plus the external
`file_operations` collaborators (`safe_filename`, `get_main_download_dir`)
kept opaque. -/
structure Config where
  url : String
  custom_filename : Option String
  safe : String → String
  mainDir : FsPath

/-- World oracles consumed by one job: fetched bodies (`none` models a raised
exception or an HTTP error status), filesystem existence answers, per-candidate
archive responses, archive contents and validity, the directory listing at
classification time, and the three transcoder outcomes. -/
structure Env where
  resolvePage : Option String
  accountPage : Option String
  destExists : Bool
  zipExists : Bool
  zipResp : String → ZipResp
  zipEntries : List String
  extractOk : Bool
  listdir : List String
  videoOk : Bool
  audioOk : Bool
  mergeOk : Bool

/-- `download_zip_file(zip_url, output_path, ...)`: reject on a non-200 status
or an HTML content type before any write; stream to `output_path` only after
both checks pass; any exception is a plain failure. -/
def download_zip_file (zip_url : String) (output_path : FsPath) (r : ZipResp) :
    Bool × List Event :=
  match r with
  | .err => (false, [.net zip_url])
  | .resp status ct =>
    if status ≠ 200 then (false, [.net zip_url])
    else if isHtmlContentType ct then (false, [.net zip_url])
    else (true, [.net zip_url, .write output_path])

/-- The candidate loop of `process_single_url` (lines 70-75): try each zip URL
in order, stopping at the first accepted download. -/
def tryDownload (resp : String → ZipResp) (urls : List String) (zipPath : FsPath) :
    Bool × List Event :=
  match urls with
  | [] => (false, [])
  | u :: rest =>
    let d := download_zip_file u zipPath (resp u)
    if d.1 then (true, d.2)
    else
      let t := tryDownload resp rest zipPath
      (t.1, d.2 ++ t.2)

/-- `output_filename`: the custom name when truthy (Python falsiness of the
empty string), else `recording_{sid}.mp4`; a `.mp4` suffix is forced
case-insensitively. -/
def outputName (cfg : Config) (sid : String) : String :=
  let o :=
    match cfg.custom_filename with
    | some c => if c = "" then "recording_" ++ sid ++ ".mp4" else c
    | none => "recording_" ++ sid ++ ".mp4"
  if pyEndsWith (lowerStr o) ".mp4" then o else o ++ ".mp4"

/-- Lines 93-130 of `process_single_url`: classification, the two
normalization passes, the merge, and the final move, each guarded and each
failure cleaning up the working directory. Returns the events of this phase
only. -/
def afterArchive (env : Env) (tempDir finalTemp finalDest : FsPath) :
    Bool × List Event :=
  let streams := find_media_streams tempDir env.listdir
  match lookupGroup streams "screenshare" with
  | none => (false, [.cleanup tempDir])
  | some _ =>
    if env.videoOk = false then
      (false, [.transcode .video, .cleanup tempDir])
    else if env.audioOk = false then
      (false, [.transcode .video, .write (tempDir ++ ["normalized_video.mkv"]),
               .transcode .audio, .cleanup tempDir])
    else if env.mergeOk then
      (true, [.transcode .video, .write (tempDir ++ ["normalized_video.mkv"]),
              .transcode .audio, .write (tempDir ++ ["normalized_audio.m4a"]),
              .transcode .merge, .write finalTemp,
              .move finalTemp finalDest, .cleanup tempDir])
    else
      (false, [.transcode .video, .write (tempDir ++ ["normalized_video.mkv"]),
               .transcode .audio, .write (tempDir ++ ["normalized_audio.m4a"]),
               .transcode .merge, .cleanup tempDir])

/-- `process_single_url(url, custom_filename, file_ops, ffmpeg_handler,
quality)`: the full per-job pipeline, returning its boolean result and the
event trace. The identifier-resolution fetch is attempted before anything
else; `makedirs` precedes the destination-existence check; the zip-exists
branch skips both download and extraction. -/
def process_single_url (cfg : Config) (env : Env) : Bool × List Event :=
  match get_id_and_type cfg.url env.resolvePage with
  | none => (false, [.net cfg.url])
  | some rid_ty =>
    if rid_ty.1 = "" then (false, [.net cfg.url])
    else
      let sid := cfg.safe rid_ty.1
      let tempDir := cfg.mainDir ++ ["adobe_connect_" ++ sid]
      let zipPath := tempDir ++ [sid ++ ".zip"]
      let outName := cfg.safe (outputName cfg sid)
      let finalTemp := tempDir ++ [outName]
      let finalDest := cfg.mainDir ++ [outName]
      let pre : List Event := [.net cfg.url, .mkdir tempDir]
      if env.destExists then (true, pre ++ [.cleanup tempDir])
      else if env.zipExists = false then
        let acct := get_account_id env.accountPage
        let zurls := construct_zip_urls cfg.url rid_ty.1 rid_ty.2 acct
        let dl := tryDownload env.zipResp zurls zipPath
        if dl.1 = false then
          (false, pre ++ [.net cfg.url] ++ dl.2 ++ [.cleanup tempDir])
        else if env.extractOk = false then
          (false, pre ++ [.net cfg.url] ++ dl.2 ++ [.extract zipPath, .cleanup tempDir])
        else
          let a := afterArchive env tempDir finalTemp finalDest
          (a.1, pre ++ [.net cfg.url] ++ dl.2 ++ [.extract zipPath] ++
                env.zipEntries.map (fun n => .write (tempDir ++ [n])) ++ a.2)
      else
        let a := afterArchive env tempDir finalTemp finalDest
        (a.1, pre ++ a.2)

/-- Single-URL mode of `main()`: a missing transcoder is detected at startup
and exits with status 1; otherwise `process_single_url` is called and its
return value is discarded, after which `main` returns normally (process exit
status 0). -/
def main_single_url (ffmpeg_available : Bool) (cfg : Config) (env : Env) : Nat :=
  if ffmpeg_available = false then 1
  else
    let _ := process_single_url cfg env
    0

/-! ## Spec-side comparison definitions -/

/-- The last path segment of an already-stripped path string: the suffix after
the final slash (the whole string when no slash occurs). Stated from the
specification text to compare with the trailing-run extraction of the code. -/
def lastSegment (s : String) : String :=
  String.mk ((s.data.reverse.takeWhile (fun c => c ≠ '/')).reverse)

/-- `scheme://netloc` of the recording URL, as used by every candidate. -/
def schemeHostBase (url : String) : String :=
  (pyUrlsplit url).scheme ++ "://" ++ (pyUrlsplit url).netloc

/-- The fixed candidate generation order of the Archive Locator: the four
base shapes (bare identifier and `p`-prefixed identifier, each with an
identifier-named and a fixed `output`-named archive), then the two
content-hierarchy shapes exactly when an account identifier was found. -/
def specArchiveShapes (base rid : String) (account_id : Option String) : List String :=
  [base ++ "/" ++ rid ++ "/output/" ++ rid ++ ".zip?download=zip",
   base ++ "/" ++ rid ++ "/output/output.zip?download=zip",
   base ++ "/p" ++ rid ++ "/output/" ++ rid ++ ".zip?download=zip",
   base ++ "/p" ++ rid ++ "/output/output.zip?download=zip"] ++
  (match account_id with
   | some a => [base ++ "/content/" ++ a ++ "/" ++ rid ++ "-1/output/" ++ rid ++ "-1.zip?download=zip",
                base ++ "/content/" ++ a ++ "/" ++ rid ++ "-1/output/output.zip?download=zip"]
   | none => [])

/-! ## Concrete fixtures for witnesses and counterexamples -/

/-- An identity sanitizer: a legal behaviour of the external
`safe_filename`. -/
def idSafe : String → String := fun s => s

/-- A demo job: standard recording URL, default output name. -/
def cfgDemo : Config := {
  url := "https://my.adobeconnect.com/p123abc/"
  custom_filename := none
  safe := idSafe
  mainDir := ["downloads"] }

/-- A job whose URL yields no identifier at all: the fetch fails and the URL
path is empty. -/
def cfgNoIdentifier : Config := { cfgDemo with url := "https://host" }

/-- Candidate responses: every candidate is a valid binary archive. -/
def respAllZip : String → ZipResp := fun _ => .resp 200 "application/zip"

/-- Candidate responses for the three-candidate fetch scenario: the first two
URLs answer 200 with an HTML content type, the third with a binary archive. -/
def respThird : String → ZipResp := fun u =>
  if u = "u1" then .resp 200 "text/html; charset=utf-8"
  else if u = "u2" then .resp 202 "TEXT/HTML"
  else .resp 200 "application/zip"

/-- A fully successful world: resolution falls back to the path token, the
first candidate download is a valid archive, extraction succeeds, both
streams are present and every transcoding call succeeds. -/
def envHappy : Env := {
  resolvePage := none
  accountPage := none
  destExists := false
  zipExists := false
  zipResp := respAllZip
  zipEntries := ["screenshare_1.flv", "cameravoip_1.flv"]
  extractOk := true
  listdir := ["screenshare_1.flv", "cameravoip_1.flv"]
  videoOk := true
  audioOk := true
  mergeOk := true }

/-- The successful world with the destination file already present. -/
def envDest : Env := { envHappy with destExists := true }

/-- The successful world with a leftover archive in the working directory. -/
def envZipReuse : Env := { envHappy with zipExists := true }

/-! ## Helper lemmas -/

theorem mem_pyDedupAux (seen : List String) (l : List String) (x : String) :
    x ∈ pyDedupAux seen l ↔ x ∈ l ∧ x ∉ seen := by
  induction l generalizing seen with
  | nil => simp [pyDedupAux]
  | cons y ys ih =>
    by_cases hy : seen.contains y
    · rw [pyDedupAux, if_pos hy, ih]
      constructor
      · rintro ⟨hx, hs⟩
        exact ⟨List.mem_cons_of_mem _ hx, hs⟩
      · rintro ⟨hx, hs⟩
        rcases List.mem_cons.mp hx with rfl | hx
        · exact absurd (List.mem_of_elem_eq_true hy) hs
        · exact ⟨hx, hs⟩
    · rw [pyDedupAux, if_neg hy]
      constructor
      · intro hx
        rcases List.mem_cons.mp hx with rfl | hx
        · exact ⟨List.mem_cons_self _ _, fun hs => hy (List.elem_eq_true_of_mem hs)⟩
        · rcases (ih (y :: seen)).mp hx with ⟨h1, h2⟩
          refine ⟨List.mem_cons_of_mem _ h1, fun hs => h2 (List.mem_cons_of_mem _ hs)⟩
      · rintro ⟨hx, hs⟩
        rcases List.mem_cons.mp hx with rfl | hx
        · exact List.mem_cons_self _ _
        · by_cases hxy : x = y
          · subst hxy; exact List.mem_cons_self _ _
          · refine List.mem_cons_of_mem _ ((ih (y :: seen)).mpr ⟨hx, fun h => ?_⟩)
            rcases List.mem_cons.mp h with h | h
            · exact hxy h
            · exact hs h

theorem pyDedupAux_sublist (seen : List String) (l : List String) :
    (pyDedupAux seen l).Sublist l := by
  induction l generalizing seen with
  | nil => simp [pyDedupAux]
  | cons y ys ih =>
    by_cases hy : seen.contains y
    · rw [pyDedupAux, if_pos hy]
      exact (ih seen).cons y
    · rw [pyDedupAux, if_neg hy]
      exact (ih (y :: seen)).cons₂ y

theorem pyDedupAux_nodup (seen : List String) (l : List String) :
    (pyDedupAux seen l).Nodup := by
  induction l generalizing seen with
  | nil => simp [pyDedupAux]
  | cons y ys ih =>
    by_cases hy : seen.contains y
    · rw [pyDedupAux, if_pos hy]; exact ih seen
    · rw [pyDedupAux, if_neg hy]
      refine List.nodup_cons.mpr ⟨fun hmem => ?_, ih (y :: seen)⟩
      exact ((mem_pyDedupAux _ _ _).mp hmem).2 (List.mem_cons_self _ _)

theorem download_zip_file_events (u : String) (p : FsPath) (r : ZipResp) (e : Event)
    (he : e ∈ (download_zip_file u p r).2) : e = .net u ∨ e = .write p := by
  rcases r with _ | ⟨status, ct⟩
  · simp [download_zip_file] at he
    exact Or.inl he
  · by_cases hs : status = 200
    · by_cases hh : isHtmlContentType ct
      · simp [download_zip_file, hs, hh] at he
        exact Or.inl he
      · simp [download_zip_file, hs, hh] at he
        rcases he with he | he
        · exact Or.inl he
        · exact Or.inr he
    · simp [download_zip_file, hs] at he
      exact Or.inl he

theorem tryDownload_events (resp : String → ZipResp) (urls : List String)
    (zipPath : FsPath) (e : Event) (he : e ∈ (tryDownload resp urls zipPath).2) :
    (∃ u, e = .net u) ∨ e = .write zipPath := by
  induction urls with
  | nil => simp [tryDownload] at he
  | cons u rest ih =>
    rw [tryDownload] at he
    by_cases hd : (download_zip_file u zipPath (resp u)).1
    · rw [if_pos hd] at he
      rcases download_zip_file_events u zipPath (resp u) e he with h | h
      · exact Or.inl ⟨u, h⟩
      · exact Or.inr h
    · rw [if_neg hd] at he
      rcases List.mem_append.mp he with h | h
      · rcases download_zip_file_events u zipPath (resp u) e h with h | h
        · exact Or.inl ⟨u, h⟩
        · exact Or.inr h
      · exact ih h

theorem afterArchive_move (env : Env) (td ft fd : FsPath) (s d : FsPath)
    (h : Event.move s d ∈ (afterArchive env td ft fd).2) :
    env.videoOk = true ∧ env.audioOk = true ∧ env.mergeOk = true ∧ s = ft ∧ d = fd := by
  rw [afterArchive] at h
  rcases hg : lookupGroup (find_media_streams td env.listdir) "screenshare" with _ | g
  · rw [hg] at h; simp at h
  · rw [hg] at h
    by_cases hv : env.videoOk = false
    · rw [if_pos hv] at h; simp at h
    · rw [if_neg hv] at h
      by_cases ha : env.audioOk = false
      · rw [if_pos ha] at h; simp at h
      · rw [if_neg ha] at h
        by_cases hm : env.mergeOk
        · rw [if_pos hm] at h
          simp at h
          exact ⟨eq_true_of_ne_false hv, eq_true_of_ne_false ha, hm, h.1, h.2⟩
        · rw [if_neg hm] at h; simp at h

theorem afterArchive_write (env : Env) (td ft fd : FsPath) (p : FsPath)
    (h : Event.write p ∈ (afterArchive env td ft fd).2) :
    p = td ++ ["normalized_video.mkv"] ∨ p = td ++ ["normalized_audio.m4a"] ∨ p = ft := by
  rw [afterArchive] at h
  rcases hg : lookupGroup (find_media_streams td env.listdir) "screenshare" with _ | g
  · rw [hg] at h; simp at h
  · rw [hg] at h
    by_cases hv : env.videoOk = false
    · rw [if_pos hv] at h; simp at h
    · rw [if_neg hv] at h
      by_cases ha : env.audioOk = false
      · rw [if_pos ha] at h; simp at h
        exact Or.inl h
      · rw [if_neg ha] at h
        by_cases hm : env.mergeOk
        · rw [if_pos hm] at h; simp at h
          tauto
        · rw [if_neg hm] at h; simp at h
          tauto

theorem afterArchive_countP_net (env : Env) (td ft fd : FsPath) :
    (afterArchive env td ft fd).2.countP isNetEvent = 0 := by
  rw [afterArchive]
  rcases lookupGroup (find_media_streams td env.listdir) "screenshare" with _ | g
  · rfl
  · by_cases hv : env.videoOk = false
    · rw [if_pos hv]; rfl
    · rw [if_neg hv]
      by_cases ha : env.audioOk = false
      · rw [if_pos ha]; rfl
      · rw [if_neg ha]
        by_cases hm : env.mergeOk
        · rw [if_pos hm]; rfl
        · rw [if_neg hm]; rfl

theorem afterArchive_countP_extract (env : Env) (td ft fd : FsPath) :
    (afterArchive env td ft fd).2.countP isExtractEvent = 0 := by
  rw [afterArchive]
  rcases lookupGroup (find_media_streams td env.listdir) "screenshare" with _ | g
  · rfl
  · by_cases hv : env.videoOk = false
    · rw [if_pos hv]; rfl
    · rw [if_neg hv]
      by_cases ha : env.audioOk = false
      · rw [if_pos ha]; rfl
      · rw [if_neg ha]
        by_cases hm : env.mergeOk
        · rw [if_pos hm]; rfl
        · rw [if_neg hm]; rfl

theorem takeWhile_congr_of_imp {p q : Char → Bool}
    (hpq : ∀ c, q c = true → p c = true) :
    ∀ l : List Char, (∀ c ∈ l.takeWhile p, q c = true) → l.takeWhile q = l.takeWhile p
  | [], _ => rfl
  | c :: t, h => by
    by_cases hc : p c = true
    · have hq : q c = true := by
        apply h
        rw [List.takeWhile_cons, hc]
        exact List.mem_cons_self _ _
      rw [List.takeWhile_cons, List.takeWhile_cons, hc, hq]
      simp only [if_true]
      have ht : ∀ x ∈ t.takeWhile p, q x = true := by
        intro x hx
        apply h
        rw [List.takeWhile_cons, hc]
        simp only [if_true]
        exact List.mem_cons_of_mem _ hx
      rw [takeWhile_congr_of_imp hpq t ht]
    · have hqc : q c ≠ true := fun hq => hc (hpq c hq)
      rw [List.takeWhile_cons, List.takeWhile_cons, if_neg hc, if_neg hqc]

theorem trailingToken_eq_lastSegment (s : String)
    (hne : lastSegment s ≠ "")
    (hsafe : (lastSegment s).data.all isUrlSafeChar = true) :
    trailingToken s = some (lastSegment s) := by
  have hdata : (lastSegment s).data = (s.data.reverse.takeWhile (fun c => c ≠ '/')).reverse := rfl
  have hsafe2 : ∀ c ∈ s.data.reverse.takeWhile (fun c => c ≠ '/'), isUrlSafeChar c = true := by
    intro c hc
    have : c ∈ (lastSegment s).data := by
      rw [hdata, List.mem_reverse]
      exact hc
    exact List.all_eq_true.mp hsafe c this
  have hpq : ∀ c : Char, isUrlSafeChar c = true → (fun c => decide (c ≠ '/')) c = true := by
    intro c h
    by_contra hcontra
    simp only [decide_eq_true_eq, Decidable.not_not] at hcontra
    subst hcontra
    exact absurd h (by decide)
  have hrun : s.data.reverse.takeWhile isUrlSafeChar =
      s.data.reverse.takeWhile (fun c => c ≠ '/') :=
    takeWhile_congr_of_imp hpq _ hsafe2
  have hne2 : (s.data.reverse.takeWhile isUrlSafeChar).reverse ≠ [] := by
    rw [hrun, ← hdata]
    intro h
    exact hne (String.ext h)
  rw [trailingToken, if_neg hne2]
  rw [hrun, ← hdata]

/-- C2: if the fetched body matches one of the recognized patterns, the
resolver returns the first matching pattern's captured digits with kind
`sco-id`; if no pattern matches or the fetch failed, a nonempty trailing
URL-safe segment of the path is returned with kind `path-id` (in particular
any nonempty all-URL-safe last path segment); with no trailing URL-safe
character at all, resolution fails. -/
theorem resolver_id_resolution_cases (url : String) (page : Option String) :
    (∀ b v, page = some b → findScoId b = some v →
        get_id_and_type url page = some (v, "sco-id"))
  ∧ (∀ _ : (∀ b, page = some b → findScoId b = none),
       (∀ t, trailingToken (pathTokenSource url) = some t →
          get_id_and_type url page = some (t, "path-id"))
     ∧ (trailingToken (pathTokenSource url) = none → get_id_and_type url page = none)
     ∧ (lastSegment (pathTokenSource url) ≠ "" →
        (lastSegment (pathTokenSource url)).data.all isUrlSafeChar = true →
          get_id_and_type url page = some (lastSegment (pathTokenSource url), "path-id"))) := by
  constructor
  · rintro b v rfl hf
    simp only [get_id_and_type, hf]
  · intro hnm
    have key : get_id_and_type url page = pathFallbackResult url := by
      cases page with
      | none => rfl
      | some b => simp only [get_id_and_type, hnm b rfl]
    refine ⟨?_, ?_, ?_⟩
    · intro t ht
      rw [key, pathFallbackResult, ht]
    · intro ht
      rw [key, pathFallbackResult, ht]
    · intro hne hsafe
      rw [key, pathFallbackResult, trailingToken_eq_lastSegment _ hne hsafe]

/-- C2 witness: concrete path-fallback and pattern-match runs. -/
theorem resolver_id_resolution_cases_witness :
    get_id_and_type "https://my.adobeconnect.com/p123abc/" none = some ("p123abc", "path-id")
  ∧ get_id_and_type "https://h/x/" (some "pre sco-id=4577 post") = some ("4577", "sco-id") :=
  ⟨((resolver_id_resolution_cases "https://my.adobeconnect.com/p123abc/" none).2
      (fun b hb => nomatch hb)).1 "p123abc" (by decide),
   (resolver_id_resolution_cases "https://h/x/" (some "pre sco-id=4577 post")).1
      "pre sco-id=4577 post" "4577" rfl (by decide)⟩

/-- C4: archive candidate generation is a pure function of scheme+host,
identifier, kind and discovered account identifier; the output is the
order-preserving dedup of the fixed shape list: four base shapes plus the two
content-hierarchy shapes exactly when an account identifier was found, with
first-seen order kept and no duplicates. -/
theorem zip_candidates_deterministic_shapes_dedup (url rid ty : String) (acct : Option String) :
    construct_zip_urls url rid ty acct = pyDedup (specArchiveShapes (schemeHostBase url) rid acct)
  ∧ (construct_zip_urls url rid ty acct).Nodup
  ∧ (construct_zip_urls url rid ty acct).Sublist (specArchiveShapes (schemeHostBase url) rid acct)
  ∧ (∀ u ∈ specArchiveShapes (schemeHostBase url) rid acct, u ∈ construct_zip_urls url rid ty acct)
  ∧ (acct = none → (specArchiveShapes (schemeHostBase url) rid acct).length = 4)
  ∧ (∀ a, acct = some a → (specArchiveShapes (schemeHostBase url) rid acct).length = 6) := by
  have heq : construct_zip_urls url rid ty acct =
      pyDedup (specArchiveShapes (schemeHostBase url) rid acct) := by
    cases acct <;> rfl
  refine ⟨heq, ?_, ?_, ?_, ?_, ?_⟩
  · rw [heq]; exact pyDedupAux_nodup _ _
  · rw [heq]; exact pyDedupAux_sublist _ _
  · intro u hu
    rw [heq]
    exact (mem_pyDedupAux [] _ u).mpr ⟨hu, by simp⟩
  · rintro rfl; rfl
  · rintro a rfl; rfl

/-- C4 witness: concrete candidate list with an account identifier. -/
theorem zip_candidates_deterministic_shapes_dedup_witness :
    construct_zip_urls "https://my.adobeconnect.com/p123/" "999" "sco-id" (some "42") =
      ["https://my.adobeconnect.com/999/output/999.zip?download=zip",
       "https://my.adobeconnect.com/999/output/output.zip?download=zip",
       "https://my.adobeconnect.com/p999/output/999.zip?download=zip",
       "https://my.adobeconnect.com/p999/output/output.zip?download=zip",
       "https://my.adobeconnect.com/content/42/999-1/output/999-1.zip?download=zip",
       "https://my.adobeconnect.com/content/42/999-1/output/output.zip?download=zip"]
  ∧ ("https://my.adobeconnect.com/999/output/999.zip?download=zip" ∈
       construct_zip_urls "https://my.adobeconnect.com/p123/" "999" "sco-id" (some "42")) :=
  ⟨(zip_candidates_deterministic_shapes_dedup "https://my.adobeconnect.com/p123/" "999" "sco-id"
      (some "42")).1.trans (by decide),
   (zip_candidates_deterministic_shapes_dedup "https://my.adobeconnect.com/p123/" "999" "sco-id"
      (some "42")).2.2.2.1 _ (by decide)⟩

/-- C9: the candidate list does not depend on the identifier kind: for any
URL, identifier and account outcome, `sco-id` and `path-id` (indeed any two
kind strings) produce the identical list in the identical order. -/
theorem zip_candidates_independent_of_id_type (url rid t1 t2 : String) (acct : Option String) :
    construct_zip_urls url rid t1 acct = construct_zip_urls url rid t2 acct := rfl

/-- C8 (amended): single-URL mode discards the job result and exits with
status 0 whenever the transcoder was found at startup (and 1 otherwise), so a
failed job produces no process-level failure indication. -/
theorem single_mode_exit_ignores_job_result (cfg : Config) (env : Env) :
    main_single_url true cfg env = 0 ∧ main_single_url false cfg env = 1 := ⟨rfl, rfl⟩

/-- C8 counterexample: a job that fails still exits with status 0. -/
theorem claim_single_mode_exit_status_refuted :
    (process_single_url cfgNoIdentifier envHappy).1 = false
  ∧ main_single_url true cfgNoIdentifier envHappy = 0 := by
  constructor <;> decide

/-- C3 counterexample: `notes.flv` has no underscore after an alphanumeric
prefix, so the classifier drops it entirely; no group named `notes` exists and
no group contains its path. -/
theorem claim_notes_grouped_refuted :
    lookupGroup (find_media_streams ["extract"]
      ["screenshare_1.flv", "screenshare_10.flv", "screenshare_2.flv",
       "cameravoip_3.flv", "cameravoip_1.flv", "notes.flv"]) "notes" = none
  ∧ ((find_media_streams ["extract"]
      ["screenshare_1.flv", "screenshare_10.flv", "screenshare_2.flv",
       "cameravoip_3.flv", "cameravoip_1.flv", "notes.flv"]).all
        (fun g => !(g.2.contains ["extract", "notes.flv"]))) = true := by
  constructor <;> decide

/-- C3 (amended): numeric, stable grouping of the fragment filenames;
`notes.flv` is excluded. The second conjunct shows filenames without a
parseable trailing integer sorting as sequence 0 and retaining their relative
order. -/
theorem classifier_groups_and_numeric_order :
    find_media_streams ["extract"]
      ["screenshare_1.flv", "screenshare_10.flv", "screenshare_2.flv",
       "cameravoip_3.flv", "cameravoip_1.flv", "notes.flv"] =
      [("screenshare", [["extract", "screenshare_1.flv"], ["extract", "screenshare_2.flv"],
                        ["extract", "screenshare_10.flv"]]),
       ("cameravoip", [["extract", "cameravoip_1.flv"], ["extract", "cameravoip_3.flv"]])]
  ∧ find_media_streams ["extract"]
      ["team_b.flv", "team_a.flv", "team_2.flv", "team_1.flv"] =
      [("team", [["extract", "team_b.flv"], ["extract", "team_a.flv"],
                 ["extract", "team_1.flv"], ["extract", "team_2.flv"]])] := by
  constructor <;> decide

/-- A candidate whose response is an HTTP success with an HTML content type is
rejected without any write. -/
theorem download_zip_file_rejects_html (u : String) (p : FsPath) (s : Nat) (ct : String)
    (hs1 : 200 ≤ s) (hs2 : s < 300) (hh : isHtmlContentType ct = true) :
    download_zip_file u p (.resp s ct) = (false, [Event.net u]) := by
  by_cases h200 : s = 200
  · subst h200
    simp [download_zip_file, hh]
  · simp [download_zip_file, h200]

/-- C5: when the first two candidates answer HTTP success with HTML and the
third is a binary archive, the fetch succeeds on the third and the one and
only write happens after the third request. -/
theorem fetcher_accepts_third_candidate_no_partial_writes
    (resp : String → ZipResp) (c1 c2 c3 : String) (rest : List String) (zipPath : FsPath)
    (s1 s2 : Nat) (ct1 ct2 ct3 : String)
    (h1 : resp c1 = .resp s1 ct1) (h1a : 200 ≤ s1) (h1b : s1 < 300)
    (h1c : isHtmlContentType ct1 = true)
    (h2 : resp c2 = .resp s2 ct2) (h2a : 200 ≤ s2) (h2b : s2 < 300)
    (h2c : isHtmlContentType ct2 = true)
    (h3 : resp c3 = .resp 200 ct3) (h3c : isHtmlContentType ct3 = false) :
    tryDownload resp (c1 :: c2 :: c3 :: rest) zipPath =
      (true, [Event.net c1, Event.net c2, Event.net c3, Event.write zipPath]) := by
  have d1 : download_zip_file c1 zipPath (resp c1) = (false, [Event.net c1]) := by
    rw [h1]; exact download_zip_file_rejects_html c1 zipPath s1 ct1 h1a h1b h1c
  have d2 : download_zip_file c2 zipPath (resp c2) = (false, [Event.net c2]) := by
    rw [h2]; exact download_zip_file_rejects_html c2 zipPath s2 ct2 h2a h2b h2c
  have d3 : download_zip_file c3 zipPath (resp c3) =
      (true, [Event.net c3, Event.write zipPath]) := by
    rw [h3]
    simp [download_zip_file, h3c]
  rw [tryDownload, d1]
  simp only [Bool.false_eq_true, if_false]
  rw [tryDownload, d2]
  simp only [Bool.false_eq_true, if_false]
  rw [tryDownload, d3]
  simp

/-- C5 witness. -/
theorem fetcher_accepts_third_candidate_witness :
    tryDownload respThird ["u1", "u2", "u3"] ["downloads", "x.zip"] =
      (true, [Event.net "u1", Event.net "u2", Event.net "u3",
              Event.write ["downloads", "x.zip"]]) :=
  fetcher_accepts_third_candidate_no_partial_writes respThird "u1" "u2" "u3" []
    ["downloads", "x.zip"] 200 202 "text/html; charset=utf-8" "TEXT/HTML" "application/zip"
    (by decide) (by decide) (by decide) (by decide)
    (by decide) (by decide) (by decide) (by decide)
    (by decide) (by decide)

/-- C1 (amended): with the destination file already present, the job performs
exactly one network request (the identifier resolution fetch, which precedes
the existence check and is needed to compute the destination path), performs
no transcoding call, and removes every working directory it created. -/
theorem skip_existing_single_probe_and_cleanup (cfg : Config) (env : Env)
    (hdest : env.destExists = true) :
    (process_single_url cfg env).2.countP isNetEvent = 1
  ∧ (∀ k, Event.transcode k ∉ (process_single_url cfg env).2)
  ∧ (∀ d, Event.mkdir d ∈ (process_single_url cfg env).2 →
      Event.cleanup d ∈ (process_single_url cfg env).2) := by
  rcases hres : get_id_and_type cfg.url env.resolvePage with _ | ⟨r, t⟩
  · rw [process_single_url.eq_def, hres]
    refine ⟨rfl, ?_, ?_⟩
    · intro k
      simp [isNetEvent]
    · intro d hd
      simp at hd
  · rw [process_single_url.eq_def, hres]
    by_cases hr : r = ""
    · simp only [hr]
      refine ⟨rfl, ?_, ?_⟩
      · intro k
        simp
      · intro d hd
        simp at hd
    · simp only [if_neg hr, hdest, if_pos]
      refine ⟨?_, ?_, ?_⟩
      · simp [List.countP_cons, isNetEvent]
      · intro k
        simp
      · intro d hd
        simp at hd
        simp [hd]

/-- C1 counterexample: a job whose destination file already exists still
performs a network request (the resolution fetch happens before the existence
check), so the network-request count is not zero. -/
theorem claim_skip_existing_zero_network_refuted :
    envDest.destExists = true
  ∧ ¬ ((process_single_url cfgDemo envDest).2.countP isNetEvent = 0) := by
  constructor <;> decide

/-- C1 witness. -/
theorem skip_existing_single_probe_and_cleanup_witness :
    (process_single_url cfgDemo envDest).2.countP isNetEvent = 1
  ∧ (∀ k, Event.transcode k ∉ (process_single_url cfgDemo envDest).2) :=
  ⟨(skip_existing_single_probe_and_cleanup cfgDemo envDest (by decide)).1,
   (skip_existing_single_probe_and_cleanup cfgDemo envDest (by decide)).2.1⟩

/-- C10: when the identifier resolves and the destination file already exists,
the job reports success and the per-identifier working directory it created is
cleaned up. -/
theorem skip_existing_reports_success (cfg : Config) (env : Env) (r t : String)
    (hres : get_id_and_type cfg.url env.resolvePage = some (r, t)) (hr : r ≠ "")
    (hdest : env.destExists = true) :
    (process_single_url cfg env).1 = true
  ∧ Event.cleanup (cfg.mainDir ++ ["adobe_connect_" ++ cfg.safe r]) ∈
      (process_single_url cfg env).2 := by
  rw [process_single_url.eq_def, hres]
  simp only [if_neg hr, hdest, if_pos]
  constructor
  · trivial
  · simp

/-- C10 witness. -/
theorem skip_existing_reports_success_witness :
    (process_single_url cfgDemo envDest).1 = true :=
  (skip_existing_reports_success cfgDemo envDest "p123abc" "path-id"
    (by decide) (by decide) (by decide)).1

/-- C7 (amended): with a leftover archive in the working directory, both the
download and the extraction are skipped: the run performs only the single
resolution request, never invokes extraction, and proceeds directly to stream
classification and the transcoding phase on the existing directory contents. -/
theorem zip_reuse_skips_download_and_extraction (cfg : Config) (env : Env) (r t : String)
    (hres : get_id_and_type cfg.url env.resolvePage = some (r, t)) (hr : r ≠ "")
    (hdest : env.destExists = false) (hzip : env.zipExists = true) :
    process_single_url cfg env =
      ((afterArchive env
          (cfg.mainDir ++ ["adobe_connect_" ++ cfg.safe r])
          (cfg.mainDir ++ ["adobe_connect_" ++ cfg.safe r] ++
            [cfg.safe (outputName cfg (cfg.safe r))])
          (cfg.mainDir ++ [cfg.safe (outputName cfg (cfg.safe r))])).1,
        Event.net cfg.url ::
        Event.mkdir (cfg.mainDir ++ ["adobe_connect_" ++ cfg.safe r]) ::
        (afterArchive env
          (cfg.mainDir ++ ["adobe_connect_" ++ cfg.safe r])
          (cfg.mainDir ++ ["adobe_connect_" ++ cfg.safe r] ++
            [cfg.safe (outputName cfg (cfg.safe r))])
          (cfg.mainDir ++ [cfg.safe (outputName cfg (cfg.safe r))])).2)
  ∧ (process_single_url cfg env).2.countP isNetEvent = 1
  ∧ (process_single_url cfg env).2.countP isExtractEvent = 0 := by
  have heq : process_single_url cfg env =
      ((afterArchive env
          (cfg.mainDir ++ ["adobe_connect_" ++ cfg.safe r])
          (cfg.mainDir ++ ["adobe_connect_" ++ cfg.safe r] ++
            [cfg.safe (outputName cfg (cfg.safe r))])
          (cfg.mainDir ++ [cfg.safe (outputName cfg (cfg.safe r))])).1,
        Event.net cfg.url ::
        Event.mkdir (cfg.mainDir ++ ["adobe_connect_" ++ cfg.safe r]) ::
        (afterArchive env
          (cfg.mainDir ++ ["adobe_connect_" ++ cfg.safe r])
          (cfg.mainDir ++ ["adobe_connect_" ++ cfg.safe r] ++
            [cfg.safe (outputName cfg (cfg.safe r))])
          (cfg.mainDir ++ [cfg.safe (outputName cfg (cfg.safe r))])).2) := by
    rw [process_single_url.eq_def, hres]
    simp only [if_neg hr, hdest, hzip, Bool.false_eq_true, if_false, Bool.true_eq_false]
    rfl
  refine ⟨heq, ?_, ?_⟩
  · rw [heq]
    simp [List.countP_cons, isNetEvent, afterArchive_countP_net]
  · rw [heq]
    simp [List.countP_cons, isExtractEvent, afterArchive_countP_extract]

/-- C7 counterexample: with a leftover archive the run completes successfully
end to end, yet no extraction event ever occurs — extraction does not proceed
on the existing archive, it is skipped together with the download. -/
theorem claim_reuse_extraction_refuted :
    envZipReuse.zipExists = true
  ∧ (process_single_url cfgDemo envZipReuse).1 = true
  ∧ (process_single_url cfgDemo envZipReuse).2.countP isExtractEvent = 0 := by
  refine ⟨by decide, by decide, by decide⟩

/-- C7 witness. -/
theorem zip_reuse_skips_download_and_extraction_witness :
    (process_single_url cfgDemo envZipReuse).2.countP isNetEvent = 1 :=
  (zip_reuse_skips_download_and_extraction cfgDemo envZipReuse "p123abc" "path-id"
    (by decide) (by decide) (by decide) (by decide)).2.1

/-- Every event of a job trace is a request, a directory creation, a cleanup,
an extraction marker, or one of the archive/extraction/transcode writes and
the final move, the latter all located by the resolved identifier. -/
theorem process_trace_classify (cfg : Config) (env : Env) (e : Event)
    (he : e ∈ (process_single_url cfg env).2) :
    isNetEvent e = true
  ∨ (∃ pd, e = Event.mkdir pd)
  ∨ (∃ pd, e = Event.cleanup pd)
  ∨ (∃ ar, e = Event.extract ar)
  ∨ (∃ r t, get_id_and_type cfg.url env.resolvePage = some (r, t) ∧
      (e ∈ (afterArchive env
              (cfg.mainDir ++ ["adobe_connect_" ++ cfg.safe r])
              (cfg.mainDir ++ ["adobe_connect_" ++ cfg.safe r,
                cfg.safe (outputName cfg (cfg.safe r))])
              (cfg.mainDir ++ [cfg.safe (outputName cfg (cfg.safe r))])).2
       ∨ e = Event.write (cfg.mainDir ++ ["adobe_connect_" ++ cfg.safe r,
              cfg.safe r ++ ".zip"])
       ∨ (∃ n, n ∈ env.zipEntries ∧
            e = Event.write (cfg.mainDir ++ ["adobe_connect_" ++ cfg.safe r, n])))) := by
  rcases hres : get_id_and_type cfg.url env.resolvePage with _ | ⟨r, t⟩
  · rw [process_single_url.eq_def, hres] at he
    simp at he
    exact Or.inl (by simp [he, isNetEvent])
  · rw [process_single_url.eq_def, hres] at he
    by_cases hr : r = ""
    · simp [hr] at he
      exact Or.inl (by simp [he, isNetEvent])
    · by_cases hd : env.destExists
      · simp [hr, hd] at he
        rcases he with he | he | he
        · exact Or.inl (by simp [he, isNetEvent])
        · exact Or.inr (Or.inl ⟨_, he⟩)
        · exact Or.inr (Or.inr (Or.inl ⟨_, he⟩))
      · by_cases hz : env.zipExists
        · simp [hr, hd, hz] at he
          rcases he with he | he | he
          · exact Or.inl (by simp [he, isNetEvent])
          · exact Or.inr (Or.inl ⟨_, he⟩)
          · exact Or.inr (Or.inr (Or.inr (Or.inr ⟨r, t, rfl, Or.inl he⟩)))
        · by_cases hdl : (tryDownload env.zipResp
              (construct_zip_urls cfg.url r t (get_account_id env.accountPage))
              (cfg.mainDir ++ ["adobe_connect_" ++ cfg.safe r,
                cfg.safe r ++ ".zip"])).1 = false
          · simp [hr, hd, hz, hdl] at he
            rcases he with he | he | he | he | he
            · exact Or.inl (by simp [he, isNetEvent])
            · exact Or.inr (Or.inl ⟨_, he⟩)
            · exact Or.inl (by simp [he, isNetEvent])
            · rcases tryDownload_events _ _ _ e he with ⟨u, rfl⟩ | rfl
              · exact Or.inl (by simp [isNetEvent])
              · exact Or.inr (Or.inr (Or.inr (Or.inr ⟨r, t, rfl, Or.inr (Or.inl rfl)⟩)))
            · exact Or.inr (Or.inr (Or.inl ⟨_, he⟩))
          · by_cases hx : env.extractOk = false
            · simp [hr, hd, hz, hdl, hx] at he
              rcases he with he | he | he | he | he | he
              · exact Or.inl (by simp [he, isNetEvent])
              · exact Or.inr (Or.inl ⟨_, he⟩)
              · exact Or.inl (by simp [he, isNetEvent])
              · rcases tryDownload_events _ _ _ e he with ⟨u, rfl⟩ | rfl
                · exact Or.inl (by simp [isNetEvent])
                · exact Or.inr (Or.inr (Or.inr (Or.inr ⟨r, t, rfl, Or.inr (Or.inl rfl)⟩)))
              · exact Or.inr (Or.inr (Or.inr (Or.inl ⟨_, he⟩)))
              · exact Or.inr (Or.inr (Or.inl ⟨_, he⟩))
            · simp [hr, hd, hz, hdl, hx] at he
              rcases he with he | he | he | he | he | he | he
              · exact Or.inl (by simp [he, isNetEvent])
              · exact Or.inr (Or.inl ⟨_, he⟩)
              · exact Or.inl (by simp [he, isNetEvent])
              · rcases tryDownload_events _ _ _ e he with ⟨u, rfl⟩ | rfl
                · exact Or.inl (by simp [isNetEvent])
                · exact Or.inr (Or.inr (Or.inr (Or.inr ⟨r, t, rfl, Or.inr (Or.inl rfl)⟩)))
              · exact Or.inr (Or.inr (Or.inr (Or.inl ⟨_, he⟩)))
              · rcases he with ⟨n, hn, rfl⟩
                exact Or.inr (Or.inr (Or.inr (Or.inr ⟨r, t, rfl,
                  Or.inr (Or.inr ⟨n, hn, rfl⟩)⟩)))
              · exact Or.inr (Or.inr (Or.inr (Or.inr ⟨r, t, rfl, Or.inl he⟩)))

/-- C6: the destination directory receives a file only through the final move,
which happens only when the video pass, the audio pass and the merge all
succeeded; every other write of the job lands strictly inside the per-job
working subdirectory, never directly in the destination directory. -/
theorem destination_move_only_after_all_passes (cfg : Config) (env : Env) :
    (∀ s d, Event.move s d ∈ (process_single_url cfg env).2 →
       env.videoOk = true ∧ env.audioOk = true ∧ env.mergeOk = true ∧
       ∃ n, d = cfg.mainDir ++ [n])
  ∧ (∀ p, Event.write p ∈ (process_single_url cfg env).2 →
       ∃ m rest, rest ≠ [] ∧ p = cfg.mainDir ++ [m] ++ rest) := by
  constructor
  · intro s d hmem
    rcases process_trace_classify cfg env _ hmem with
      h | ⟨pd, h⟩ | ⟨pd, h⟩ | ⟨ar, h⟩ | ⟨r, t, hres, h | h | ⟨n, hn, h⟩⟩
    · simp [isNetEvent] at h
    · simp at h
    · simp at h
    · simp at h
    · have hm := afterArchive_move _ _ _ _ _ _ h
      exact ⟨hm.1, hm.2.1, hm.2.2.1, _, hm.2.2.2.2⟩
    · simp at h
    · simp at h
  · intro p hmem
    rcases process_trace_classify cfg env _ hmem with
      h | ⟨pd, h⟩ | ⟨pd, h⟩ | ⟨ar, h⟩ | ⟨r, t, hres, h | h | ⟨n, hn, h⟩⟩
    · simp [isNetEvent] at h
    · simp at h
    · simp at h
    · simp at h
    · rcases afterArchive_write _ _ _ _ _ h with hw | hw | hw
      · exact ⟨"adobe_connect_" ++ cfg.safe r, ["normalized_video.mkv"], by simp, by
          rw [hw]⟩
      · exact ⟨"adobe_connect_" ++ cfg.safe r, ["normalized_audio.m4a"], by simp, by
          rw [hw]⟩
      · exact ⟨"adobe_connect_" ++ cfg.safe r, [cfg.safe (outputName cfg (cfg.safe r))],
          by simp, by rw [hw]; simp⟩
    · simp at h
      exact ⟨"adobe_connect_" ++ cfg.safe r, [cfg.safe r ++ ".zip"], by simp, by
        rw [h]; simp⟩
    · simp at h
      exact ⟨"adobe_connect_" ++ cfg.safe r, [n], by simp, by rw [h]; simp⟩

/-- C6 witness. -/
theorem destination_move_only_after_all_passes_witness :
    envHappy.videoOk = true ∧ envHappy.audioOk = true ∧ envHappy.mergeOk = true :=
  have h := (destination_move_only_after_all_passes cfgDemo envHappy).1
    ["downloads", "adobe_connect_p123abc", "recording_p123abc.mp4"]
    ["downloads", "recording_p123abc.mp4"] (by decide)
  ⟨h.1, h.2.1, h.2.2.1⟩
